import Mathlib

/-!
Verification of the `fries` CHIP-8 emulator (`src/display.rs`, `src/cpu.rs`,
`src/mem.rs`, `src/fries.rs`) against its specification.

The Rust code is shallowly embedded: machine integers become `Nat` with an
explicit `% 2 ^ w` wherever the fixed-width arithmetic wraps, and fallible
operations (array bounds panics, `assert!`, `fail!`, stack underflow via
`expect`) become `Option`-returning functions where `none` models the fatal
panic that aborts execution.
-/

namespace Fries

/-! ### Display (`src/display.rs`) -/

/-- 64x32 one-bit-per-pixel framebuffer stored as 32 rows of 64-bit words,
bit 63 = leftmost pixel (column 0).  Mirrors `struct Display { p: [u64, ..ROWS] }`. -/
@[ext]
structure Display where
  p : Fin 32 → Nat

/-- `Display::new`: every row zero. -/
def Display.new : Display := ⟨fun _ => 0⟩

/-- `Display::clear`: every row zero. -/
def Display.clear (_d : Display) : Display := ⟨fun _ => 0⟩

/-- One iteration body of the `Display::draw` loop acting on a single row word:
`let sprite: u64 = (*sprite as u64) << (64 - 8); row ^= sprite >> x;
if x != 0 { row ^= sprite << (64 - x); }`.  Here `x` is the already-reduced
column (`x % 64` is applied at the call site, as in the source), `b` is the
sprite byte (a `u8`, hence `% 256`), and the second left shift truncates to
64 bits exactly as Rust `u64` arithmetic does. -/
def blit (row b x : Nat) : Nat :=
  let m := (b % 256) <<< 56
  let row := row ^^^ (m >>> x)
  if x ≠ 0 then row ^^^ ((m <<< (64 - x)) % 2 ^ 64) else row

/-- The row loop of `Display::draw`: the target row steps by
`y = (y + 1) % ROWS`, which is exactly increment in `Fin 32`. -/
def drawGo (p : Fin 32 → Nat) (x : Nat) (y : Fin 32) : List Nat → (Fin 32 → Nat)
  | [] => p
  | b :: rest => drawGo (fun i => if i = y then blit (p i) b x else p i) x (y + 1) rest

/-- `Display::draw`: reduce the origin (`x % COLS`, `y % ROWS`) and XOR-blit
the sprite bytes row by row.  In `src/display.rs` this function returns `()`:
it produces no collision information (see `Display.collision`). -/
def Display.draw (d : Display) (s : List Nat) (x y : Nat) : Display :=
  ⟨drawGo d.p (x % 64) ⟨y % 32, Nat.mod_lt y (by omega)⟩ s⟩

/-- The combined 64-bit mask one sprite byte XORs into its target row,
including the wrapped-around part. -/
def blitMask (b x : Nat) : Nat :=
  (((b % 256) <<< 56) >>> x) ^^^
    (if x ≠ 0 then (((b % 256) <<< 56) <<< (64 - x)) % 2 ^ 64 else 0)

/-- Modelled from the spec: `Display::draw` in `src/display.rs` returns `()`
and computes no collision result, although its caller in `src/fries.rs`
branches on a collision boolean.  Following the spec's words, collision is
true when the AND of the old row bits and the mask is nonzero before the XOR,
across any affected row.  This is the row loop of that predicate. -/
def collGo (p : Fin 32 → Nat) (x : Nat) (y : Fin 32) : List Nat → Bool
  | [] => false
  | b :: rest =>
    if p y &&& blitMask b x ≠ 0 then true
    else collGo (fun i => if i = y then blit (p i) b x else p i) x (y + 1) rest

/-- Modelled from the spec: the collision boolean that `Display::draw` is
specified to return (missing from `src/display.rs`). -/
def Display.collision (d : Display) (s : List Nat) (x y : Nat) : Bool :=
  collGo d.p (x % 64) ⟨y % 32, Nat.mod_lt y (by omega)⟩ s

/-- The spec's own description of the blit, with explicit row indexing: the
byte at row offset `r` is XORed into row `(y + r) % 32`, aligned at column
`x % 64`, via the two partial writes of `blit`. -/
def specGo (p : Fin 32 → Nat) (s : List Nat) (x y r : Nat) : Fin 32 → Nat :=
  match s with
  | [] => p
  | b :: rest =>
    specGo (fun i => if i.val = (y + r) % 32 then blit (p i) b (x % 64) else p i) rest x y (r + 1)

/-- The draw algorithm exactly as the spec states it. -/
def drawSpec (d : Display) (s : List Nat) (x y : Nat) : Display :=
  ⟨specGo d.p s x y 0⟩

theorem blit_eq_xor (row b x : Nat) : blit row b x = row ^^^ blitMask b x := by
  unfold blit blitMask
  by_cases h : x ≠ 0
  · simp only [if_pos h, Nat.xor_assoc]
  · simp only [if_neg h, Nat.xor_zero]

/-- XOR of all masks a sprite contributes to row `i`. -/
def sxor (x : Nat) (y i : Fin 32) : List Nat → Nat
  | [] => 0
  | b :: rest => (if i = y then blitMask b x else 0) ^^^ sxor x (y + 1) i rest

theorem drawGo_apply (s : List Nat) (p : Fin 32 → Nat) (x : Nat) (y i : Fin 32) :
    drawGo p x y s i = p i ^^^ sxor x y i s := by
  induction s generalizing p y with
  | nil => simp [drawGo, sxor]
  | cons b rest ih =>
    simp only [drawGo, sxor, ih]
    by_cases h : i = y
    · simp [h, blit_eq_xor, Nat.xor_assoc]
    · simp [h]

theorem drawGo_eq_specGo (s : List Nat) (p : Fin 32 → Nat) (x y r : Nat)
    (yf : Fin 32) (hy : yf.val = (y + r) % 32) :
    drawGo p (x % 64) yf s = specGo p s x y r := by
  induction s generalizing p r yf with
  | nil => simp [drawGo, specGo]
  | cons b rest ih =>
    simp only [drawGo, specGo]
    have hupd : (fun i => if i = yf then blit (p i) b (x % 64) else p i)
        = fun i => if i.val = (y + r) % 32 then blit (p i) b (x % 64) else p i := by
      funext i
      by_cases h : i = yf
      · simp [h, hy]
      · have hv : ¬ i.val = (y + r) % 32 := by
          intro hv
          exact h (Fin.ext (by rw [hv, ← hy]))
        simp [h, hv]
    rw [hupd]
    refine ih _ (r + 1) (yf + 1) ?_
    have hone : ((1 : Fin 32) : ℕ) = 1 := rfl
    have h1 : (yf + 1).val = (yf.val + 1) % 32 := by
      rw [Fin.val_add, hone]
    rw [h1, hy, Nat.mod_add_mod]
    omega

/-- **C5**: `Display::draw` XORs sprite byte `r` into row `(y + r) % 32`
aligned at column `x % 64` with wraparound via the two partial writes, exactly
as the spec describes (first conjunct: the code equals the spec's algorithm);
and drawing an all-on 8-pixel sprite row at `x = 63`, `y = 0` on a cleared
display turns on exactly the pixel at column 63 and the pixels at columns 0-6
of row 0 (second conjunct). -/
theorem C5_draw_blit_spec :
    (∀ (d : Display) (s : List Nat) (x y : Nat), Display.draw d s x y = drawSpec d s x y) ∧
    (∀ (r : Fin 32) (c : Fin 64),
        ((Display.new.draw [255] 63 0).p r >>> (63 - c.val)) &&& 1 = 1 ↔
          (r = 0 ∧ (c.val = 63 ∨ c.val ≤ 6))) := by
  constructor
  · intro d s x y
    unfold Display.draw drawSpec
    congr 1
    exact drawGo_eq_specGo s d.p x y 0 _ rfl
  · decide

/-- **C6**: drawing the identical sprite at the identical position twice
restores the framebuffer to exactly its prior state (XOR self-inverse). -/
theorem C6_draw_involutive (d : Display) (s : List Nat) (x y : Nat) :
    Display.draw (Display.draw d s x y) s x y = d := by
  ext i
  simp [Display.draw, drawGo_apply, Nat.xor_assoc, Nat.xor_self, Nat.xor_zero]

/-- The display reached by drawing `[0xFF]` at the origin of a cleared screen:
the leftmost eight pixels of row 0 are on. -/
def d1 : Display := Display.new.draw [255] 0 0

/-- **C1** (code bug, evaluated at the failing input): drawing `[0xFF]` at
`(0, 0)` over `d1` turns previously-on pixels off, so the spec-modelled
collision boolean is `true`; but `Display::draw` in `src/display.rs` returns
`()` — the embedding returns only the new framebuffer — so no collision value
exists for `Vm::tick` (`src/fries.rs` line 268) to move into the flag
register, even though that caller branches on one. -/
theorem C1_draw_collision_missing_eval :
    d1.p 0 ≠ 0 ∧ Display.collision d1 [255] 0 0 = true ∧ (d1.draw [255] 0 0).p 0 = 0 := by
  decide

/-! ### Registers (`src/cpu.rs`) -/

/-- 16 general-purpose 8-bit registers, `struct Registers { regs: [u8, ..16] }`.
The underlying map is over `Nat`; reads reduce `% 256`, embedding the `u8`
element type.  The `assert!(i < REGISTERS)` of `get_mut` is modelled at the
one call site that can violate it (`Vm.keyup`); every other caller passes a
decoded nibble. -/
structure Registers where
  regs : Nat → Nat

/-- `Registers::get`. -/
def Registers.get (r : Registers) (i : Nat) : Nat := r.regs i % 256

/-- `Registers::get_mut` followed by an assignment. -/
def Registers.set (r : Registers) (i v : Nat) : Registers :=
  ⟨fun j => if j = i then v else r.regs j⟩

/-- `Registers::set_flag`: write into `VF` (index 15). -/
def Registers.set_flag (r : Registers) (v : Nat) : Registers := r.set 15 v

/-- `Vm::math_op` (`src/fries.rs`): the 8XYN arithmetic/logic sub-dispatch.
`vx`/`vy` are read before any mutation, as in the source; the `0x5`/`0x7`
branches re-read the destination after `set_flag` exactly as `*dst -= vy`
and `*dst = vy - *dst` do; `u8` arithmetic wraps `% 256`; the unimplemented
`fail!` arm is `none`. -/
def mathOp (r : Registers) (x y op : Nat) : Option Registers :=
  let vx := r.get x
  let vy := r.get y
  match op with
  | 0x0 => some (r.set x vy)
  | 0x1 => some (r.set x (vx ||| vy))
  | 0x2 => some (r.set x (vx &&& vy))
  | 0x3 => some (r.set x (vx ^^^ vy))
  | 0x4 =>
    let res := (vx + vy) % 256
    some ((r.set x res).set_flag (if res < vy then 1 else 0))
  | 0x5 =>
    let r := r.set_flag (if vy > vx then 1 else 0)
    some (r.set x ((r.get x + 256 - vy) % 256))
  | 0x6 =>
    let res := vy >>> 1
    let r := r.set_flag (vy &&& 0x1)
    some (r.set x res)
  | 0x7 =>
    let r := r.set_flag (if vx > vy then 1 else 0)
    some (r.set x ((vy + 256 - r.get x) % 256))
  | 0xe =>
    let res := (vy <<< 1) % 256
    let r := r.set_flag ((vy >>> 7) &&& 0x1)
    some (r.set x res)
  | _ => none

theorem Registers.get_set_self (r : Registers) (i v : Nat) : (r.set i v).get i = v % 256 := by
  simp [Registers.get, Registers.set]

theorem Registers.get_set_ne (r : Registers) (i j v : Nat) (h : j ≠ i) :
    (r.set i v).get j = r.get j := by
  simp [Registers.get, Registers.set, h]

/-- Register state with `VF = 250`, `V1 = 10` (the 8XY4 aliasing input). -/
def regsC3cx : Registers := ⟨fun i => if i = 15 then 250 else if i = 1 then 10 else 0⟩

/-- **C3, counterexample**: the claim quantifies over every pair of register
indices, but at `X = 15` the flag write lands on `VX` itself: with
`VF = 250`, `V1 = 10`, instruction 8F14 leaves `VF = 1` (the carry flag), not
the wrapped sum 4 the claim requires. -/
theorem C3_add_overwrites_cx :
    ¬ ((mathOp regsC3cx 15 1 4).map (fun g => g.get 15)
        = some ((regsC3cx.get 15 + regsC3cx.get 1) % 256)) := by
  decide

/-- Register state with `V0 = 250`, `V1 = 10`. -/
def regsAdd1 : Registers := ⟨fun i => if i = 0 then 250 else if i = 1 then 10 else 0⟩

/-- Register state with `V0 = 1`, `V1 = 1`. -/
def regsAdd2 : Registers := ⟨fun i => if i = 0 then 1 else if i = 1 then 1 else 0⟩

/-- **C3 (amended)**: for register indices `X ≠ 15` (when `X = 15` the flag
write overwrites the sum, see the counterexample), 8XY4 stores the wrapped
8-bit sum in `VX` and sets the flag register to 1 exactly when the wrapped
result is less than the added operand `VY`; in particular `VX=250, VY=10`
gives `VX=4` with flag 1, and `VX=1, VY=1` gives `VX=2` with flag 0. -/
theorem C3_add_with_carry :
    (∀ (r : Registers) (x y : Nat), x < 16 → y < 16 → x ≠ 15 →
      ∀ r', mathOp r x y 4 = some r' →
        r'.get x = (r.get x + r.get y) % 256 ∧
        r'.get 15 = (if (r.get x + r.get y) % 256 < r.get y then 1 else 0)) ∧
    (mathOp regsAdd1 0 1 4).map (fun g => (g.get 0, g.get 15)) = some (4, 1) ∧
    (mathOp regsAdd2 0 1 4).map (fun g => (g.get 0, g.get 15)) = some (2, 0) := by
  refine ⟨?_, by decide, by decide⟩
  intro r x y _hx _hy hne r' h
  have h' : ((r.set x ((r.get x + r.get y) % 256)).set_flag
      (if (r.get x + r.get y) % 256 < r.get y then 1 else 0)) = r' := Option.some.inj h
  subst h'
  constructor
  · unfold Registers.set_flag
    rw [Registers.get_set_ne _ _ _ _ hne, Registers.get_set_self]
    unfold Registers.get
    omega
  · unfold Registers.set_flag
    rw [Registers.get_set_self]
    split <;> rfl

/-- Closed witness for `C3_add_with_carry` at `X = 0`, `Y = 1`, `V0 = 250`,
`V1 = 10`. -/
theorem C3_add_with_carry_witness :
    (mathOp regsAdd1 0 1 4).map (fun g => g.get 0) = some 4 := by
  have h := (C3_add_with_carry.1 regsAdd1 0 1 (by decide) (by decide) (by decide)
    (((regsAdd1.set 0 ((regsAdd1.get 0 + regsAdd1.get 1) % 256)).set_flag
      (if (regsAdd1.get 0 + regsAdd1.get 1) % 256 < regsAdd1.get 1 then 1 else 0))) rfl).1
  show some (((regsAdd1.set 0 ((regsAdd1.get 0 + regsAdd1.get 1) % 256)).set_flag
      (if (regsAdd1.get 0 + regsAdd1.get 1) % 256 < regsAdd1.get 1 then 1 else 0)).get 0)
    = some 4
  rw [h]
  decide

/-- Register state with `VF = 5`, `V1 = 10` (the 8XY5 aliasing input). -/
def regsC4cx : Registers := ⟨fun i => if i = 15 then 5 else if i = 1 then 10 else 0⟩

/-- **C4, counterexample**: at `X = 15` the borrow flag is written into `VX`
before the subtraction reads it back: with `VF = 5`, `V1 = 10`, instruction
8F15 leaves `VF = (1 - 10) mod 256 = 247`, not the wrapped difference 251 of
the pre-mutation values the claim requires. -/
theorem C4_sub_overwrites_cx :
    ¬ ((mathOp regsC4cx 15 1 5).map (fun g => g.get 15)
        = some ((regsC4cx.get 15 + 256 - regsC4cx.get 1) % 256)) := by
  decide

/-- Register state with `V0 = 5`, `V1 = 10`. -/
def regsSub1 : Registers := ⟨fun i => if i = 0 then 5 else if i = 1 then 10 else 0⟩

/-- **C4 (amended)**: for register indices `X ≠ 15` (when `X = 15` the flag
write is read back by the subtraction and then overwritten, see the
counterexample), 8XY5 sets the flag register to 1 exactly when the
pre-mutation `VY` exceeds the pre-mutation `VX`, and stores the wrapping
8-bit difference `VX - VY` of the pre-mutation values in `VX`; in particular
`VX=5, VY=10` gives `VX=251` with flag 1. -/
theorem C4_sub_with_borrow :
    (∀ (r : Registers) (x y : Nat), x < 16 → y < 16 → x ≠ 15 →
      ∀ r', mathOp r x y 5 = some r' →
        r'.get 15 = (if r.get y > r.get x then 1 else 0) ∧
        r'.get x = (r.get x + 256 - r.get y) % 256) ∧
    (mathOp regsSub1 0 1 5).map (fun g => (g.get 0, g.get 15)) = some (251, 1) := by
  refine ⟨?_, by decide⟩
  intro r x y _hx _hy hne r' h
  have h' : ((r.set_flag (if r.get y > r.get x then 1 else 0)).set x
      (((r.set_flag (if r.get y > r.get x then 1 else 0)).get x + 256 - r.get y) % 256))
      = r' := Option.some.inj h
  subst h'
  have hflagx : (r.set_flag (if r.get y > r.get x then 1 else 0)).get x = r.get x := by
    unfold Registers.set_flag
    rw [Registers.get_set_ne _ _ _ _ hne]
  constructor
  · rw [Registers.get_set_ne _ _ _ _ (Ne.symm hne)]
    unfold Registers.set_flag
    rw [Registers.get_set_self]
    split <;> rfl
  · rw [Registers.get_set_self, hflagx]
    unfold Registers.get
    omega

/-- Closed witness for `C4_sub_with_borrow` at `X = 0`, `Y = 1`, `V0 = 5`,
`V1 = 10`. -/
theorem C4_sub_with_borrow_witness :
    (mathOp regsSub1 0 1 5).map (fun g => g.get 15) = some 1 := by
  have h := (C4_sub_with_borrow.1 regsSub1 0 1 (by decide) (by decide) (by decide)
    ((regsSub1.set_flag (if regsSub1.get 1 > regsSub1.get 0 then 1 else 0)).set 0
      (((regsSub1.set_flag (if regsSub1.get 1 > regsSub1.get 0 then 1 else 0)).get 0
        + 256 - regsSub1.get 1) % 256)) rfl).1
  show some (((regsSub1.set_flag (if regsSub1.get 1 > regsSub1.get 0 then 1 else 0)).set 0
      (((regsSub1.set_flag (if regsSub1.get 1 > regsSub1.get 0 then 1 else 0)).get 0
        + 256 - regsSub1.get 1) % 256)).get 15)
    = some 1
  rw [h]
  decide

/-! ### Memory (`src/mem.rs`) -/

/-- 4096-byte memory, `struct Memory { mem: [u8, ..MEMORY_SIZE] }`.  Reads
reduce `% 256` (the `u8` element type); an out-of-range access is the fatal
bounds panic, modelled as `none`. -/
structure Memory where
  mem : Nat → Nat

/-- `Memory::get`: `self.mem[i]`, panicking when `i >= 4096`. -/
def Memory.get (m : Memory) (i : Nat) : Option Nat :=
  if i < 4096 then some (m.mem i % 256) else none

/-- One byte store (a single slot of a `mut_slice` write). -/
def Memory.setByte (m : Memory) (i v : Nat) : Memory :=
  ⟨fun j => if j = i then v % 256 else m.mem j⟩

/-- `Memory::slice`: `self.mem.slice(start, stop)`, which panics unless
`start <= stop <= 4096`. -/
def Memory.slice (m : Memory) (start stop : Nat) : Option (List Nat) :=
  if start ≤ stop ∧ stop ≤ 4096 then
    some ((List.range (stop - start)).map (fun j => m.mem (start + j) % 256))
  else none

/-! ### The interpreter (`src/fries.rs`) -/

/-- `struct Vm`.  The random source `StdRng` is embedded as a pure byte
stream `rng` advanced by `rngIdx` (one draw per `0xC` opcode); everything
else mirrors the Rust fields (`u16` fields wrap `% 65536` where mutated). -/
structure Vm where
  mem : Memory
  reg : Registers
  pc : Nat
  dt : Nat
  st : Nat
  i : Nat
  retStack : List Nat
  display : Display
  blocked : Bool
  blockedReg : Nat
  keys : Nat
  rng : Nat → Nat
  rngIdx : Nat

/-- `Vm::misc` (the `0xFNN` sub-dispatch); `x` is a decoded nibble.  The
`fail!` arm and the slice bounds panics are `none`. -/
def Vm.misc (v : Vm) (x nn : Nat) : Option Vm :=
  match nn with
  | 0x07 => some {v with reg := v.reg.set x v.dt}
  | 0x0a => some {v with blockedReg := x, blocked := true}
  | 0x15 => some {v with dt := v.reg.get x}
  | 0x18 => some {v with st := v.reg.get x}
  | 0x29 => some {v with i := (v.reg.get x &&& 0xf) * 5}
  | 0x33 =>
    if v.i ≤ (v.i + 3) % 65536 ∧ (v.i + 3) % 65536 ≤ 4096 then
      some {v with mem := ((v.mem.setByte v.i ((v.reg.get x / 100) % 10)).setByte (v.i + 1)
        ((v.reg.get x / 10) % 10)).setByte (v.i + 2) (v.reg.get x % 10)}
    else none
  | 0x1e => some {v with i := (v.i + v.reg.get x) % 65536}
  | 0x55 =>
    if v.i ≤ (v.i + x + 1) % 65536 ∧ (v.i + x + 1) % 65536 ≤ 4096 then
      some {v with
        mem := ⟨fun a => if v.i ≤ a ∧ a ≤ v.i + x then v.reg.get (a - v.i) else v.mem.mem a⟩,
        i := (v.i + x + 1) % 65536}
    else none
  | 0x65 =>
    if v.i ≤ (v.i + x + 1) % 65536 ∧ (v.i + x + 1) % 65536 ≤ 4096 then
      some {v with
        reg := ⟨fun t => if t ≤ x then v.mem.mem (v.i + t) % 256 else v.reg.regs t⟩,
        i := (v.i + x + 1) % 65536}
    else none
  | _ => none

/-- `Vm::is_key_pressed`: `assert!(key < 16)` (fatal, `none`), then test bit
`key` of the key mask: `(self.keys & 1 << key) >> key == 1`. -/
def Vm.is_key_pressed (v : Vm) (key : Nat) : Option Bool :=
  if key < 16 then some ((v.keys &&& (1 <<< key)) >>> key == 1) else none

/-- The decode/dispatch body of `Vm::tick` once the two fetched bytes are in
hand.  `pc` is advanced by 2 (wrapping: `pc` is a `u16`) before any branch is
interpreted, so control transfers overwrite the default advance.  `fail!`
arms and panics are `none`.  The draw branch updates the display with the
source `Display.draw` and takes the flag from the spec-modelled
`Display.collision` (see there: the source computes no collision value). -/
def Vm.exec (v : Vm) (lo hi : Nat) : Option Vm :=
  let ins := (lo <<< 8) ||| hi
  let op := (lo >>> 4) &&& 0xf
  let x := lo &&& 0xf
  let y := (hi >>> 4) &&& 0xf
  let n := hi &&& 0xf
  let nn := hi
  let nnn := ins &&& 0xfff
  let v := {v with pc := (v.pc + 2) % 65536}
  if ins = 0x00e0 then some {v with display := v.display.clear}
  else if ins = 0x00ee then
    match v.retStack with
    | [] => none
    | a :: rest => some {v with pc := a, retStack := rest}
  else match op with
  | 0x1 => some {v with pc := nnn}
  | 0x2 => some {v with retStack := v.pc :: v.retStack, pc := nnn}
  | 0x3 => some (if v.reg.get x = nn then {v with pc := (v.pc + 2) % 65536} else v)
  | 0x4 => some (if v.reg.get x ≠ nn then {v with pc := (v.pc + 2) % 65536} else v)
  | 0x5 => some (if v.reg.get x = v.reg.get y then {v with pc := (v.pc + 2) % 65536} else v)
  | 0x6 => some {v with reg := v.reg.set x nn}
  | 0x7 => some {v with reg := v.reg.set x ((v.reg.get x + nn) % 256)}
  | 0x8 => (mathOp v.reg x y n).map (fun r => {v with reg := r})
  | 0x9 => some (if v.reg.get x ≠ v.reg.get y then {v with pc := (v.pc + 2) % 65536} else v)
  | 0xa => some {v with i := nnn}
  | 0xb => some {v with pc := nnn + v.reg.get 0}
  | 0xc =>
    some {v with reg := v.reg.set x ((v.rng v.rngIdx % 256) &&& nn), rngIdx := v.rngIdx + 1}
  | 0xd =>
    match v.mem.slice v.i ((v.i + n) % 65536) with
    | none => none
    | some sprite =>
      some {v with
        display := v.display.draw sprite (v.reg.get x) (v.reg.get y),
        reg := v.reg.set_flag
          (if v.display.collision sprite (v.reg.get x) (v.reg.get y) then 1 else 0)}
  | 0xe =>
    if nn = 0x9e then
      match v.is_key_pressed (v.reg.get x) with
      | none => none
      | some b => some (if b then {v with pc := (v.pc + 2) % 65536} else v)
    else if nn = 0xa1 then
      match v.is_key_pressed (v.reg.get x) with
      | none => none
      | some b => some (if !b then {v with pc := (v.pc + 2) % 65536} else v)
    else none
  | 0xf => v.misc x nn
  | _ => none

/-- `Vm::tick`: fetch the two bytes at `pc`, `pc + 1` (u16 wrap on the
increment) and dispatch.  Note there is no check of `blocked` here: the
source `tick` always fetches and executes. -/
def Vm.tick (v : Vm) : Option Vm :=
  match v.mem.get v.pc with
  | none => none
  | some lo =>
    match v.mem.get ((v.pc + 1) % 65536) with
    | none => none
    | some hi => v.exec lo hi

/-- `Vm::keydown`: `assert!(key < 16)`, then set bit `key`. -/
def Vm.keydown (v : Vm) (key : Nat) : Option Vm :=
  if key < 16 then some {v with keys := v.keys ||| (1 <<< key)} else none

/-- `Vm::keyup`: `assert!(key < 16)`, clear bit `key` (`u16` complement of
`1 << key`), and if blocked: unblock, write the released key into register
`blocked_reg` (whose `get_mut` asserts the index is below 16 — modelled by
the inner guard), and reset `blocked_reg` to 255. -/
def Vm.keyup (v : Vm) (key : Nat) : Option Vm :=
  if key < 16 then
    if v.blocked then
      if v.blockedReg < 16 then
        some {v with
          keys := v.keys &&& (65535 ^^^ (1 <<< key)),
          blocked := false,
          reg := v.reg.set v.blockedReg key,
          blockedReg := 255}
      else none
    else some {v with keys := v.keys &&& (65535 ^^^ (1 <<< key))}
  else none

/-- The built-in font table (`FONT` in `src/fries.rs`): 16 glyphs, 5 bytes
each. -/
def FONT : List Nat :=
  [0xF0, 0x90, 0x90, 0x90, 0xF0,
   0x20, 0x60, 0x20, 0x20, 0x70,
   0xF0, 0x10, 0xF0, 0x80, 0xF0,
   0xF0, 0x10, 0xF0, 0x10, 0xF0,
   0x90, 0x90, 0xF0, 0x10, 0x10,
   0xF0, 0x80, 0xF0, 0x10, 0xF0,
   0xF0, 0x80, 0xF0, 0x90, 0xF0,
   0xF0, 0x10, 0x20, 0x40, 0x40,
   0xF0, 0x90, 0xF0, 0x90, 0xF0,
   0xF0, 0x90, 0xF0, 0x10, 0xF0,
   0xF0, 0x90, 0xF0, 0x90, 0x90,
   0xE0, 0x90, 0xE0, 0x90, 0xE0,
   0xF0, 0x80, 0x80, 0x80, 0xF0,
   0xE0, 0x90, 0x90, 0x90, 0xE0,
   0xF0, 0x80, 0xF0, 0x80, 0xF0,
   0xF0, 0x80, 0xF0, 0x80, 0x80]

/-- `Vm::new`: zeroed memory with the ROM copied at `0x200` and the font at
0; registers default to zero, `pc = 0x200`, `blocked = false`,
`blocked_reg = 255`, empty return stack, cleared display, zero key mask. -/
def Vm.new (rom rng : Nat → Nat) : Vm where
  mem := ⟨fun a => if a < 80 then FONT.getD a 0
    else if 0x200 ≤ a ∧ a < 4096 then rom (a - 0x200) % 256 else 0⟩
  reg := ⟨fun _ => 0⟩
  pc := 0x200
  dt := 0
  st := 0
  i := 0
  retStack := []
  display := Display.new
  blocked := false
  blockedReg := 255
  keys := 0
  rng := rng
  rngIdx := 0

/-- The inner per-frame cycle loop of `run_emulator`: up to `n` `tick`
calls, breaking out (machine unchanged from that point on) as soon as
`vm.blocked` holds; a tick panic aborts (`none`). -/
def runCycles (v : Vm) : Nat → Option Vm
  | 0 => some v
  | n + 1 =>
    if v.blocked then some v
    else match v.tick with
      | none => none
      | some v' => runCycles v' n

/-- Machine states reachable from a freshly constructed `Vm` through the
operations the host loop performs: `tick`, `keydown`, `keyup`. -/
inductive Reach : Vm → Prop where
  | init (rom rng : Nat → Nat) : Reach (Vm.new rom rng)
  | tick {v v' : Vm} : Reach v → Vm.tick v = some v' → Reach v'
  | keydown {v v' : Vm} {k : Nat} : Reach v → Vm.keydown v k = some v' → Reach v'
  | keyup {v v' : Vm} {k : Nat} : Reach v → Vm.keyup v k = some v' → Reach v'

theorem Memory.get_lt {m : Memory} {i b : Nat} (h : m.get i = some b) : b < 256 := by
  unfold Memory.get at h
  split at h
  · have hb : m.mem i % 256 = b := Option.some.inj h
    omega
  · exact Option.noConfusion h

/-- Concatenating the two fetched bytes: `(lo as u16) << 8 | hi as u16`. -/
theorem lor_fetch (lo hi : Nat) (h : hi < 256) : (lo <<< 8) ||| hi = lo * 256 + hi := by
  have h2 : (2 : Nat) ^ 8 * lo + hi = 2 ^ 8 * lo ||| hi :=
    Nat.mul_add_lt_is_or (by omega) lo
  rw [Nat.shiftLeft_eq, Nat.mul_comm, ← h2]

/-- ROM whose first instruction is `1234` (jump to `0x234`). -/
def romJump : Nat → Nat := fun a => if a = 0 then 0x12 else if a = 1 then 0x34 else 0

/-- An all-zero byte stream standing in for the host RNG. -/
def rngZ : Nat → Nat := fun _ => 0

/-- A machine in the key-wait state (target register 3) whose next
instruction is `1234`. -/
def vmBlockedJump : Vm := {Vm.new romJump rngZ with blocked := true, blockedReg := 3}

/-- **C2, counterexample**: `Vm::tick` contains no check of `blocked`.
Called directly on a machine in the key-wait state it fetches and executes
the next instruction: here the jump moves `pc` from `0x200` to `0x234`,
refuting the claim that `tick()` leaves the program counter unchanged
whenever the suspension flag is set. -/
theorem C2_tick_while_blocked_cx :
    vmBlockedJump.blocked = true ∧ vmBlockedJump.pc = 0x200 ∧
      (Vm.tick vmBlockedJump).map Vm.pc = some 0x234 := by
  decide

/-- **C2 (amended)**: the key-wait suspension is enforced by the host loop,
not by `tick`: `run_emulator`'s per-frame cycle loop stops calling `tick` as
soon as `blocked` is set, leaving the whole machine state (pc, registers,
memory, display, index register, return stack) unchanged for the rest of the
frame.  `tick` itself performs no `blocked` check, so a direct call on a
waiting machine still executes an instruction (see the counterexample). -/
theorem C2_host_loop_skips (v : Vm) (n : Nat) (h : v.blocked = true) :
    runCycles v n = some v := by
  cases n with
  | zero => rfl
  | succ n => simp [runCycles, h]

/-- Witness for `C2_host_loop_skips`: a concrete waiting machine and the
source's 100 cycles per frame. -/
theorem C2_host_loop_skips_witness : runCycles vmBlockedJump 100 = some vmBlockedJump :=
  C2_host_loop_skips vmBlockedJump 100 rfl

theorem tick_call_eq (v : Vm) (lo hi : Nat)
    (h1 : v.mem.get v.pc = some lo)
    (h2 : v.mem.get ((v.pc + 1) % 65536) = some hi)
    (hlo1 : 32 ≤ lo) (hlo2 : lo < 48) :
    Vm.tick v = some {v with
      pc := ((lo <<< 8) ||| hi) &&& 0xfff,
      retStack := ((v.pc + 2) % 65536) :: v.retStack} := by
  have hhi : hi < 256 := Memory.get_lt h2
  have hins : (lo <<< 8) ||| hi = lo * 256 + hi := lor_fetch lo hi hhi
  have hop : (lo >>> 4) &&& 0xf = 2 := by
    have hs : lo >>> 4 = 2 := by
      rw [Nat.shiftRight_eq_div_pow]
      omega
    rw [hs]
    decide
  simp only [Vm.tick, h1, h2]
  simp only [Vm.exec]
  rw [if_neg (show ¬((lo <<< 8) ||| hi = 0x00e0) by rw [hins]; omega)]
  rw [if_neg (show ¬((lo <<< 8) ||| hi = 0x00ee) by rw [hins]; omega)]
  split
  all_goals try rfl
  all_goals try omega
  all_goals trivial

theorem tick_ret_eq (w : Vm) (t : Nat) (rest : List Nat)
    (h1 : w.mem.get w.pc = some 0)
    (h2 : w.mem.get ((w.pc + 1) % 65536) = some 238)
    (hstack : w.retStack = t :: rest) :
    Vm.tick w = some {w with pc := t, retStack := rest} := by
  simp only [Vm.tick, h1, h2]
  simp only [Vm.exec]
  rw [lor_fetch 0 238 (by omega)]
  norm_num
  rw [hstack]

/-- **C7**: `pc` is advanced by 2 right after the two-byte fetch, before any
control-transfer effect: a call (`2NNN`) pushes the already-advanced `pc` —
the address of the instruction immediately after the call — and jumps to
`NNN` (first conjunct); a return (`00EE`) pops the stack top into `pc`
(second conjunct); hence a call followed eventually by a return that still
finds the pushed address on top of the return stack leaves `pc` at the
instruction immediately after the original call (third conjunct). -/
theorem C7_call_return :
    (∀ (v : Vm) (lo hi : Nat),
      v.mem.get v.pc = some lo →
      v.mem.get ((v.pc + 1) % 65536) = some hi →
      32 ≤ lo → lo < 48 →
      Vm.tick v = some {v with
        pc := ((lo <<< 8) ||| hi) &&& 0xfff,
        retStack := ((v.pc + 2) % 65536) :: v.retStack}) ∧
    (∀ (w : Vm) (t : Nat) (rest : List Nat),
      w.mem.get w.pc = some 0 →
      w.mem.get ((w.pc + 1) % 65536) = some 238 →
      w.retStack = t :: rest →
      Vm.tick w = some {w with pc := t, retStack := rest}) ∧
    (∀ (v w : Vm) (lo hi : Nat) (rest : List Nat),
      v.mem.get v.pc = some lo →
      v.mem.get ((v.pc + 1) % 65536) = some hi →
      32 ≤ lo → lo < 48 →
      w.mem.get w.pc = some 0 →
      w.mem.get ((w.pc + 1) % 65536) = some 238 →
      w.retStack = ((v.pc + 2) % 65536) :: rest →
      (Vm.tick w).map Vm.pc = some ((v.pc + 2) % 65536)) := by
  refine ⟨tick_call_eq, tick_ret_eq, ?_⟩
  intro v w lo hi rest _h1 _h2 _hlo1 _hlo2 g1 g2 gstack
  rw [tick_ret_eq w ((v.pc + 2) % 65536) rest g1 g2 gstack]
  rfl

/-- ROM with `2210` (call `0x210`) at `0x200` and `00EE` (return) at
`0x210`. -/
def romCall : Nat → Nat := fun a =>
  if a = 0 then 0x22 else if a = 1 then 0x10
  else if a = 16 then 0x00 else if a = 17 then 0xEE else 0

/-- The machine running `romCall`. -/
def vmCall : Vm := Vm.new romCall rngZ

/-- Witness for `C7_call_return`: ticking the concrete call instruction at
`0x200` pushes `0x202` and jumps to `0x210`. -/
theorem C7_call_return_witness :
    Vm.tick vmCall = some {vmCall with
      pc := ((0x22 <<< 8) ||| 0x10) &&& 0xfff,
      retStack := ((vmCall.pc + 2) % 65536) :: vmCall.retStack} :=
  C7_call_return.1 vmCall 0x22 0x10 rfl rfl (by omega) (by omega)

/-- **C8**: for every key code `k < 16`, `keyup` clears bit `k` of the key
mask; if the machine is waiting for a key (with the in-range target that
reachability guarantees, see `C10_blocked_reg_invariant`), `keyup` resumes
Running, writes the RELEASED key `k` into the target register — whatever key
was waited on — and resets the wait target to 255; and `keydown` only sets a
mask bit, resolving nothing (final conjunct: the waiting state and all
registers survive a `keydown` unchanged). -/
theorem C8_keyup_resolves_wait (v : Vm) (k : Nat) (hk : k < 16) :
    (v.blocked = false →
      Vm.keyup v k = some {v with keys := v.keys &&& (65535 ^^^ (1 <<< k))}) ∧
    (v.blocked = true → v.blockedReg < 16 →
      Vm.keyup v k = some {v with
        keys := v.keys &&& (65535 ^^^ (1 <<< k)),
        blocked := false,
        reg := v.reg.set v.blockedReg k,
        blockedReg := 255} ∧
      (Vm.keyup v k).map (fun u => u.reg.get v.blockedReg) = some k) ∧
    Vm.keydown v k = some {v with keys := v.keys ||| (1 <<< k)} := by
  refine ⟨?_, ?_, ?_⟩
  · intro hb
    simp [Vm.keyup, hk, hb]
  · intro hb ht
    have he : Vm.keyup v k = some {v with
        keys := v.keys &&& (65535 ^^^ (1 <<< k)),
        blocked := false,
        reg := v.reg.set v.blockedReg k,
        blockedReg := 255} := by
      simp [Vm.keyup, hk, hb, ht]
    refine ⟨he, ?_⟩
    rw [he]
    show some ((v.reg.set v.blockedReg k).get v.blockedReg) = some k
    rw [Registers.get_set_self]
    congr 1
    omega
  · simp [Vm.keydown, hk]

/-- Witness for `C8_keyup_resolves_wait`: releasing key 7 on a machine
waiting with target register 3 stores 7 in register 3. -/
theorem C8_keyup_resolves_wait_witness :
    (Vm.keyup vmBlockedJump 7).map (fun u => u.reg.get 3) = some 7 :=
  ((C8_keyup_resolves_wait vmBlockedJump 7 (by decide)).2.1 rfl (by decide)).2

/-- **C9**: executing a skip-if-key instruction (`EX9E` / `EXA1`): if the
value of `VX` is at least 16 the `assert!(key < 16)` in `is_key_pressed`
aborts the machine (`tick` is `none`); under `VX < 16` the instruction
performs the extra `pc += 2` exactly according to bit `VX` of the key mask
(`EX9E` skips when the bit is set, `EXA1` when it is clear). -/
theorem C9_skip_key_assert (v : Vm) (lo hi : Nat)
    (h1 : v.mem.get v.pc = some lo)
    (h2 : v.mem.get ((v.pc + 1) % 65536) = some hi)
    (hlo1 : 224 ≤ lo) (hlo2 : lo < 240) :
    (hi = 0x9e →
      (16 ≤ v.reg.get (lo &&& 0xf) → Vm.tick v = none) ∧
      (v.reg.get (lo &&& 0xf) < 16 →
        Vm.tick v = some (
          if (v.keys &&& (1 <<< v.reg.get (lo &&& 0xf))) >>> v.reg.get (lo &&& 0xf) == 1
          then {v with pc := ((v.pc + 2) % 65536 + 2) % 65536}
          else {v with pc := (v.pc + 2) % 65536}))) ∧
    (hi = 0xa1 →
      (16 ≤ v.reg.get (lo &&& 0xf) → Vm.tick v = none) ∧
      (v.reg.get (lo &&& 0xf) < 16 →
        Vm.tick v = some (
          if (v.keys &&& (1 <<< v.reg.get (lo &&& 0xf))) >>> v.reg.get (lo &&& 0xf) == 1
          then {v with pc := (v.pc + 2) % 65536}
          else {v with pc := ((v.pc + 2) % 65536 + 2) % 65536}))) := by
  have hhi : hi < 256 := Memory.get_lt h2
  have hins : (lo <<< 8) ||| hi = lo * 256 + hi := lor_fetch lo hi hhi
  have hs : lo >>> 4 = 14 := by
    rw [Nat.shiftRight_eq_div_pow]
    omega
  have hop : (lo >>> 4) &&& 0xf = 14 := by
    rw [hs]
    decide
  constructor
  · rintro rfl
    constructor
    · intro hge
      simp only [Vm.tick, h1, h2, Vm.exec]
      rw [if_neg (by rw [hins]; omega), if_neg (by rw [hins]; omega)]
      split
      all_goals try omega
      simp only [if_true]
      simp only [Vm.is_key_pressed]
      rw [if_neg (show ¬(v.reg.get (lo &&& 0xf) < 16) by omega)]
      all_goals rfl
    · intro hlt
      simp only [Vm.tick, h1, h2, Vm.exec]
      rw [if_neg (by rw [hins]; omega), if_neg (by rw [hins]; omega)]
      split
      all_goals try omega
      simp only [if_true]
      simp only [Vm.is_key_pressed]
      rw [if_pos (by omega : v.reg.get (lo &&& 0xf) < 16)]
      all_goals first | rfl | exact absurd hop (by assumption)
  · rintro rfl
    constructor
    · intro hge
      simp only [Vm.tick, h1, h2, Vm.exec]
      rw [if_neg (by rw [hins]; omega), if_neg (by rw [hins]; omega)]
      split
      all_goals try omega
      simp only [if_false, if_true]
      simp only [Vm.is_key_pressed]
      rw [if_neg (show ¬(v.reg.get (lo &&& 0xf) < 16) by omega)]
      all_goals rfl
    · intro hlt
      simp only [Vm.tick, h1, h2, Vm.exec]
      rw [if_neg (by rw [hins]; omega), if_neg (by rw [hins]; omega)]
      split
      all_goals try omega
      simp only [if_false, if_true]
      simp only [Vm.is_key_pressed]
      rw [if_pos (by omega : v.reg.get (lo &&& 0xf) < 16)]
      cases he : (v.keys &&& (1 <<< v.reg.get (lo &&& 0xf))) >>> v.reg.get (lo &&& 0xf) == 1 <;>
        simp [he]
      all_goals first | rfl | exact absurd hop (by assumption)

/-- ROM whose first instruction is `E19E` (skip if the key in `V1` is
pressed). -/
def romKey : Nat → Nat := fun a => if a = 0 then 0xE1 else if a = 1 then 0x9E else 0

/-- A machine about to execute `E19E` with the out-of-range key code 20 in
`V1`. -/
def vmKey : Vm := {Vm.new romKey rngZ with reg := ⟨fun i => if i = 1 then 20 else 0⟩}

/-- Witness for `C9_skip_key_assert`: `E19E` with `V1 = 20` hits the fatal
assertion. -/
theorem C9_skip_key_assert_witness : Vm.tick vmKey = none :=
  ((C9_skip_key_assert vmKey 0xE1 0x9E rfl rfl (by omega) (by omega)).1 rfl).1 (by decide)

theorem misc_pres {v v' : Vm} {x nn : Nat} (hx : x < 16)
    (h : Vm.misc v x nn = some v')
    (hP : v.blocked = true → v.blockedReg < 16) :
    v'.blocked = true → v'.blockedReg < 16 := by
  unfold Vm.misc at h
  split at h
  all_goals try split at h
  all_goals first
    | exact Option.noConfusion h
    | (obtain rfl := Option.some.inj h
       first | exact hP | exact fun _ => hx)

theorem exec_pres {v v' : Vm} {lo hi : Nat} (h : Vm.exec v lo hi = some v')
    (hP : v.blocked = true → v.blockedReg < 16) :
    v'.blocked = true → v'.blockedReg < 16 := by
  have hx : lo &&& 0xf < 16 := Nat.lt_succ_of_le Nat.and_le_right
  simp only [Vm.exec] at h
  split at h
  all_goals try split at h
  all_goals try split at h
  all_goals try split at h
  all_goals try split at h
  all_goals try split at h
  all_goals try split at h
  all_goals first
    | exact Option.noConfusion h
    | (obtain rfl := Option.some.inj h
       exact hP)
    | (rcases Option.map_eq_some'.mp h with ⟨r, -, rfl⟩
       exact hP)
    | exact misc_pres hx h hP

theorem tick_pres {v v' : Vm} (h : Vm.tick v = some v')
    (hP : v.blocked = true → v.blockedReg < 16) :
    v'.blocked = true → v'.blockedReg < 16 := by
  unfold Vm.tick at h
  split at h
  · exact Option.noConfusion h
  · split at h
    · exact Option.noConfusion h
    · exact exec_pres h hP

theorem keydown_pres {v v' : Vm} {k : Nat} (h : Vm.keydown v k = some v')
    (hP : v.blocked = true → v.blockedReg < 16) :
    v'.blocked = true → v'.blockedReg < 16 := by
  unfold Vm.keydown at h
  split at h
  · obtain rfl := Option.some.inj h
    exact hP
  · exact Option.noConfusion h

theorem keyup_pres {v v' : Vm} {k : Nat} (h : Vm.keyup v k = some v')
    (hP : v.blocked = true → v.blockedReg < 16) :
    v'.blocked = true → v'.blockedReg < 16 := by
  unfold Vm.keyup at h
  split at h
  · split at h
    · split at h
      · obtain rfl := Option.some.inj h
        intro hb
        exact Bool.noConfusion hb
      · exact Option.noConfusion h
    · obtain rfl := Option.some.inj h
      exact hP
  · exact Option.noConfusion h

/-- **C10**: in every state reachable from a fresh machine by `tick`,
`keydown` and `keyup`, a set key-wait flag implies the wait target register
index is below 16: the target is only ever assigned from a decoded low
nibble (`Vm::misc`, arm `0x0a`), so the register write `keyup` performs
while waiting is always in bounds. -/
theorem C10_blocked_reg_invariant (v : Vm) (hR : Reach v) :
    v.blocked = true → v.blockedReg < 16 := by
  induction hR with
  | init rom rng => exact fun hb => Bool.noConfusion hb
  | tick _ h ih => exact tick_pres h ih
  | keydown _ h ih => exact keydown_pres h ih
  | keyup _ h ih => exact keyup_pres h ih

/-- ROM whose first instruction is `F30A` (wait for a key into `V3`). -/
def romWait : Nat → Nat := fun a => if a = 0 then 0xF3 else if a = 1 then 0x0A else 0

/-- The machine reached by one tick of the `F30A` program: it is waiting
with target register 3. -/
def vmWait : Vm := ((Vm.new romWait rngZ).tick).getD (Vm.new romWait rngZ)

/-- Witness for `C10_blocked_reg_invariant` at the concrete reachable
waiting state `vmWait`. -/
theorem C10_blocked_reg_invariant_witness : vmWait.blockedReg < 16 :=
  C10_blocked_reg_invariant vmWait (Reach.tick (Reach.init romWait rngZ) rfl) rfl

end Fries
